import Mathlib

/-!
# Multithreaded HTTP server: request handling, shutdown signal and thread pool

A shallow embedding of `src/server.cpp` (and of the identical pool of
`src/thread_pool.cpp`).

* A `std::string` is a sequence of `char`; it is modelled as `List Char`, one
  element per byte, so `size()` is `List.length`.
* The file system is a parameter: a partial map from path names to file
  contents, `none` meaning that `std::ifstream` fails to open the path.
* `WEB_ROOT` is a global variable of the program; it is a parameter here.
-/

namespace HttpServer

/-- A `std::string`: one list element per `char`. -/
abbrev Str := List Char

/-! ## HTTP logic (`server.cpp`, lines 132-209) -/

/-- `struct HttpRequest` (lines 135-139). -/
structure HttpRequest where
  method : Str
  path : Str
  valid : Bool
  deriving DecidableEq, Repr

/-- What opening a path with `std::ifstream` gives: `none` when `is_open()` is
false, the whole contents of the file otherwise. -/
abbrev FileSystem := Str → Option Str

/-- `read_file` (lines 141-147): the empty string when the file cannot be
opened, its contents otherwise. -/
def read_file (fs : FileSystem) (path : Str) : Str :=
  match fs path with
  | none => []
  | some contents => contents

/-- `std::isspace` in the classic locale, which `operator>>` uses to delimit
tokens: space, `\t`, `\n`, `\v`, `\f`, `\r`. -/
def isspace (c : Char) : Bool :=
  c.toNat == 32 || (9 ≤ c.toNat && c.toNat ≤ 13)

/-- One `stream >> str` on the unread input: leading whitespace is skipped, then
characters are taken up to the next whitespace or the end of input. Returns the
token and the input left unread. When nothing can be extracted the token is
empty, which is the value the (default constructed) target string keeps. -/
def extract (input : Str) : Str × Str :=
  let rest := input.dropWhile isspace
  (rest.takeWhile (fun c => !isspace c), rest.dropWhile (fun c => !isspace c))

/-- The method name compared against in `parse_request` and `build_response`. -/
def GET : Str := "GET".toList

/-- `parse_request` (lines 149-167). -/
def parse_request (raw : Str) : HttpRequest :=
  let m := extract raw
  let p := extract m.2
  if m.1.isEmpty || p.1.isEmpty then
    { method := m.1, path := p.1, valid := false }
  else if m.1 ≠ GET then
    { method := m.1, path := p.1, valid := true }
  else
    { method := m.1, path := p.1, valid := true }

/-- `std::to_string` of a `size_t`: the decimal digits. -/
def to_string (n : Nat) : Str := Nat.toDigits 10 n

/-- `http_response` (lines 169-182). -/
def http_response (code : Int) (body : Str) : Str :=
  let status : Str :=
    if code = 200 then "200 OK".toList
    else if code = 400 then "400 Bad Request".toList
    else if code = 403 then "403 Forbidden".toList
    else if code = 404 then "404 Not Found".toList
    else if code = 405 then "405 Method Not Allowed".toList
    else "500 Internal Server Error".toList
  "HTTP/1.1 ".toList ++ status ++
    "\r\nContent-Length: ".toList ++ to_string body.length ++
    "\r\nContent-Type: text/plain\r\n\r\n".toList ++ body

/-- `std::string::find(pat)`: the first position at which `pat` occurs in `s`,
`none` standing for `npos`. -/
def find (s pat : Str) : Option Nat :=
  if pat.isPrefixOf s then some 0
  else match s with
    | [] => none
    | _ :: t => (find t pat).map (· + 1)

/-- `build_response` (lines 184-209), together with the list of the paths it
hands to `read_file`, in order: the second component is the trace of file
reads, the first one the returned string. -/
def build_response_traced (WEB_ROOT : Str) (fs : FileSystem) (req : HttpRequest) :
    Str × List Str :=
  if !req.valid then
    (http_response 400 "Bad Request".toList, [])
  else if req.method ≠ GET then
    (http_response 405 "Method Not Allowed".toList, [])
  else
    let path : Str := if req.path = "/".toList then "/index.html".toList else req.path
    if find path "..".toList ≠ none then
      (http_response 403 "Forbidden".toList, [])
    else
      let full_path := WEB_ROOT ++ path
      let body := read_file fs full_path
      if body.isEmpty then
        (http_response 404 "Not Found".toList, [full_path])
      else
        ("HTTP/1.1 200 OK\r\nContent-Type: text/html\r\nContent-Length: ".toList ++
          to_string body.length ++ "\r\n\r\n".toList ++ body, [full_path])

/-- `build_response` (lines 184-209): the returned string. -/
def build_response (WEB_ROOT : Str) (fs : FileSystem) (req : HttpRequest) : Str :=
  (build_response_traced WEB_ROOT fs req).1

/-- The paths `build_response` reads. -/
def files_read (WEB_ROOT : Str) (fs : FileSystem) (req : HttpRequest) : List Str :=
  (build_response_traced WEB_ROOT fs req).2

/-! ## File systems used as concrete inputs -/

/-- A file system whose only file is `./www-old/secret.txt`. -/
def sibling_fs : FileSystem := fun p =>
  if p = "./www-old/secret.txt".toList then some "top secret".toList else none

/-- A file system whose only file is `./www/index.html`, which is empty. -/
def empty_index_fs : FileSystem := fun p =>
  if p = "./www/index.html".toList then some [] else none

/-- A file system whose only file is `./www/index.html`, with body `hello`. -/
def hello_fs : FileSystem := fun p =>
  if p = "./www/index.html".toList then some "hello".toList else none

/-! ## Shutdown signal (`server.cpp`, lines 20-42) -/

/-- The state `signal_handler` acts on: the two globals of lines 23-24 and the
set of file descriptors the process has open. -/
structure SignalState where
  shutdown_requested : Bool
  server_fd_global : Int
  open_fds : Finset Int
  deriving DecidableEq

/-- The system call `close(fd)` on the set of open descriptors: an open
descriptor is released, any other one (`EBADF`) leaves the set as it is. -/
def close (fd : Int) (open_fds : Finset Int) : Finset Int :=
  open_fds.erase fd

/-- `signal_handler` (lines 37-42). -/
def signal_handler (s : SignalState) : SignalState :=
  let s1 := { s with shutdown_requested := true }
  if s1.server_fd_global ≠ -1 then
    { s1 with open_fds := close s1.server_fd_global s1.open_fds }
  else
    s1

/-! ## Thread pool (`server.cpp`, lines 80-130; `thread_pool.cpp`, lines 10-71)

The pool is run by `n` worker threads and the thread that owns it ("main"),
which submits `N` tasks with `enqueue` and then calls `shutdown` (as `main` of
either file does). The model is an interleaving semantics: a state, and a step
function that says what the next atomic action of a chosen thread does to it.
A thread that is blocked (on the mutex, in `condition.wait`, in `join`) leaves
the state unchanged. An interleaving is a list of thread choices.

* A task is named by its submission index `k`; `throws k` tells whether calling
  the `k`-th closure ends with an exception. The calls made are logged in
  `executed`.
* `queue_mutex` is `holder`: the thread that owns it, if any. `tasks` is only
  touched under the mutex, so each critical section reads it at one instant.
  `stop` is atomic and written without the mutex, so the two reads of it (in
  the wait predicate, line 121, and on line 123) are separate steps.
* A thread blocked in `condition.wait` may resume whenever the mutex is free:
  this covers `notify_one`, `notify_all` and spurious wake-ups, which is why the
  notifications carry no state here.
* No `try`/`catch` is present in `worker_loop`; an exception of a task leaves
  `worker_loop`, and with it the thread function of the `std::thread`, which
  calls `std::terminate`: `aborted` records that call. The process ends some
  time after it; until then the other threads go on running, so they keep
  stepping here, and a process that has ended is an interleaving that is not
  continued.
-/

/-- The threads of the program. -/
inductive Thread where
  | main
  | worker (i : Nat)
  deriving DecidableEq, Repr

/-- Where a worker is in `worker_loop` (`server.cpp`, lines 115-129). -/
inductive WorkerPc where
  /-- Top of the `while (true)` body, line 117: about to lock `queue_mutex`. -/
  | idle
  /-- Lines 120-122: holds the mutex, about to evaluate the wait predicate. -/
  | pred
  /-- Inside `condition.wait`, the mutex released. -/
  | waiting
  /-- Line 123: holds the mutex, `condition.wait` has returned. -/
  | locked
  /-- Line 127: the mutex released, calling task `t`. -/
  | running (t : Nat)
  /-- Returned from `worker_loop` through line 123. -/
  | exited
  /-- Has applied `front()`/`pop()` to an empty queue (undefined behaviour). -/
  | fault
  /-- An exception of the task has left `worker_loop`. -/
  | threw
  deriving DecidableEq, Repr

/-- Where the owning thread is. -/
inductive MainPc where
  /-- It has submitted `k` tasks; next it calls `enqueue` for task `k`, or
  `shutdown()` when all `N` are submitted. -/
  | submitting (k : Nat)
  /-- In `enqueue` (lines 93-96) for task `k`, holding the mutex. -/
  | pushing (k : Nat)
  /-- In the loop of `shutdown` (lines 103-105), about to join worker `i`. -/
  | joining (i : Nat)
  /-- The call `shutdown()` has returned. -/
  | returned
  deriving DecidableEq, Repr

/-- The state of the pool and of its threads. -/
structure PoolState where
  stop : Bool
  tasks : List Nat
  holder : Option Thread
  workers : Nat → WorkerPc
  main : MainPc
  executed : List Nat
  aborted : Bool

/-- The pool right after its constructor (lines 82-86): nothing queued, `stop`
false, every worker at the top of its loop. -/
def init : PoolState :=
  { stop := false, tasks := [], holder := none, workers := fun _ => WorkerPc.idle,
    main := MainPc.submitting 0, executed := [], aborted := false }

/-- The next action of worker `i` in `worker_loop` (lines 115-129). -/
def worker_step (throws : Nat → Bool) (s : PoolState) (i : Nat) : PoolState :=
  match s.workers i with
  | WorkerPc.idle =>
    if s.holder = none then
      { s with holder := some (Thread.worker i),
               workers := Function.update s.workers i WorkerPc.pred }
    else s
  | WorkerPc.pred =>
    if s.stop || !s.tasks.isEmpty then
      { s with workers := Function.update s.workers i WorkerPc.locked }
    else
      { s with holder := none, workers := Function.update s.workers i WorkerPc.waiting }
  | WorkerPc.waiting =>
    if s.holder = none then
      { s with holder := some (Thread.worker i),
               workers := Function.update s.workers i WorkerPc.pred }
    else s
  | WorkerPc.locked =>
    if s.stop && s.tasks.isEmpty then
      { s with holder := none, workers := Function.update s.workers i WorkerPc.exited }
    else
      match s.tasks with
      | t :: rest =>
        { s with tasks := rest, holder := none,
                 workers := Function.update s.workers i (WorkerPc.running t) }
      | [] => { s with workers := Function.update s.workers i WorkerPc.fault }
  | WorkerPc.running t =>
    if throws t then
      { s with executed := s.executed ++ [t], aborted := true,
               workers := Function.update s.workers i WorkerPc.threw }
    else
      { s with executed := s.executed ++ [t],
               workers := Function.update s.workers i WorkerPc.idle }
  | WorkerPc.exited => s
  | WorkerPc.fault => s
  | WorkerPc.threw => s

/-- The next action of the owning thread: `enqueue` (lines 92-98) for each of
the `N` tasks, then `shutdown` (lines 100-106) over the `n` workers. -/
def main_step (n N : Nat) (s : PoolState) : PoolState :=
  match s.main with
  | MainPc.submitting k =>
    if k < N then
      if s.holder = none then
        { s with holder := some Thread.main, main := MainPc.pushing k }
      else s
    else
      { s with stop := true, main := MainPc.joining 0 }
  | MainPc.pushing k =>
    { s with tasks := s.tasks ++ [k], holder := none, main := MainPc.submitting (k + 1) }
  | MainPc.joining i =>
    if i < n then
      if s.workers i = WorkerPc.exited then { s with main := MainPc.joining (i + 1) }
      else s
    else
      { s with main := MainPc.returned }
  | MainPc.returned => s

/-- One step of the program: the chosen thread performs its next action; a
thread that does not exist does nothing. -/
def step (throws : Nat → Bool) (n N : Nat) (s : PoolState) (th : Thread) : PoolState :=
  match th with
  | Thread.main => main_step n N s
  | Thread.worker i => if i < n then worker_step throws s i else s

/-- The state after the interleaving `sched`, from `s`. -/
def run (throws : Nat → Bool) (n N : Nat) (sched : List Thread) (s : PoolState) : PoolState :=
  sched.foldl (step throws n N) s

/-- The task a worker is calling, if any. -/
def running_task : WorkerPc → List Nat
  | WorkerPc.running t => [t]
  | _ => []

/-- The tasks being called by the workers with index below `n`. -/
def in_flight (workers : Nat → WorkerPc) : Nat → List Nat
  | 0 => []
  | n + 1 => in_flight workers n ++ running_task (workers n)

/-- The number of tasks the owning thread has pushed, `N` being their total. -/
def submitted (N : Nat) : MainPc → Nat
  | MainPc.submitting k => k
  | MainPc.pushing k => k
  | MainPc.joining _ => N
  | MainPc.returned => N

/-- The invariant of the pool run by `n` workers for `N` tasks. -/
structure Inv (n N : Nat) (s : PoolState) : Prop where
  /-- A worker owns the mutex exactly between locking it and leaving the
  critical section. -/
  lock_worker : ∀ i, s.holder = some (Thread.worker i) ↔
    (s.workers i = WorkerPc.pred ∨ s.workers i = WorkerPc.locked)
  /-- The owning thread owns the mutex exactly inside `enqueue`. -/
  lock_main : s.holder = some Thread.main ↔ ∃ k, s.main = MainPc.pushing k
  /-- Past `condition.wait` the wait predicate has been seen true; the queue
  was not touched since, and `stop` is never reset. -/
  past_wait : ∀ i, s.workers i = WorkerPc.locked → s.stop = true ∨ s.tasks ≠ []
  /-- `front()` and `pop()` were never applied to an empty queue. -/
  no_fault : ∀ i, s.workers i ≠ WorkerPc.fault
  /-- `stop` is set by `shutdown` only, after the last `enqueue`. -/
  stop_late : s.stop = true → ∀ k, s.main ≠ MainPc.submitting k ∧ s.main ≠ MainPc.pushing k
  /-- The owning thread submits at most `N` tasks. -/
  bound_submitting : ∀ k, s.main = MainPc.submitting k → k ≤ N
  /-- Inside `enqueue` a task is still to be pushed. -/
  bound_pushing : ∀ k, s.main = MainPc.pushing k → k < N
  /-- A worker that returned saw `stop` set and the queue empty, and nothing is
  queued after that. -/
  exited_drained : ∀ i, s.workers i = WorkerPc.exited → s.stop = true ∧ s.tasks = []
  /-- The workers already joined have returned. -/
  joined : ∀ j, s.main = MainPc.joining j → ∀ i, i < j → s.workers i = WorkerPc.exited
  /-- When `shutdown` returns every worker has returned. -/
  all_joined : s.main = MainPc.returned → ∀ i, i < n → s.workers i = WorkerPc.exited
  /-- Every pushed task is, exactly once, either called already, being called,
  or queued. -/
  conservation : ∀ a, s.executed.count a + (in_flight s.workers n).count a + s.tasks.count a =
    (List.range (submitted N s.main)).count a

/-! ## Interleavings used as concrete inputs -/

/-- An interleaving of two workers and the owning thread for two tasks, up to
the return of `shutdown()`: worker 0 first waits on the empty queue, worker 1
is once blocked on the mutex, and task 1 is called before task 0 ends. -/
def shutdown_schedule : List Thread :=
  [Thread.worker 0, Thread.worker 0, Thread.main, Thread.worker 1, Thread.main,
   Thread.worker 0, Thread.worker 0, Thread.worker 0, Thread.main, Thread.main,
   Thread.worker 1, Thread.worker 1, Thread.worker 1, Thread.worker 1, Thread.main,
   Thread.worker 0, Thread.worker 0, Thread.worker 0, Thread.worker 0, Thread.main,
   Thread.worker 1, Thread.worker 1, Thread.worker 1, Thread.main, Thread.main]

/-- Two tasks of which the first one throws. -/
def first_task_throws : Nat → Bool := fun t => t == 0

/-- The owning thread enqueues two tasks, then the one worker dequeues the
first one and is about to call it. -/
def before_throw_schedule : List Thread :=
  [Thread.main, Thread.main, Thread.main, Thread.main,
   Thread.worker 0, Thread.worker 0, Thread.worker 0]

/-- The owning thread enqueues two tasks, then the second of two workers
dequeues the first one and is about to call it. -/
def second_worker_schedule : List Thread :=
  [Thread.main, Thread.main, Thread.main, Thread.main,
   Thread.worker 1, Thread.worker 1, Thread.worker 1]

/-- The owning thread enqueues one task, then worker 0 locks the mutex and
passes `condition.wait`. -/
def dequeue_schedule : List Thread :=
  [Thread.main, Thread.main, Thread.worker 0, Thread.worker 0]

/-! ## Facts about the HTTP logic -/

/-- `find` reports a position exactly when the pattern occurs as a contiguous
block of the string. -/
theorem find_ne_none_iff (pat s : Str) : find s pat ≠ none ↔ pat <:+: s := by
  induction s with
  | nil =>
    unfold find
    by_cases h : pat.isPrefixOf [] = true
    · simp only [h, if_true]
      simpa using h
    · simp only [h]
      simpa using h
  | cons a t ih =>
    unfold find
    by_cases h : pat.isPrefixOf (a :: t) = true
    · simp only [h, if_true]
      have hp : pat <+: a :: t := List.isPrefixOf_iff_prefix.mp h
      simp [List.infix_cons_iff, hp]
    · simp only [h]
      have hp : ¬ pat <+: a :: t := fun hp => h (List.isPrefixOf_iff_prefix.mpr hp)
      rw [List.infix_cons_iff]
      constructor
      · intro hne
        right
        apply ih.mp
        intro hnone
        apply hne
        simp [hnone]
      · rintro (h1 | h2)
        · exact absurd h1 hp
        · have := ih.mpr h2
          intro hnone
          apply this
          cases hf : find t pat with
          | none => rfl
          | some v => simp [hf] at hnone

/-- One extraction on `ws ++ tok ++ rest`, where `ws` is whitespace, `tok` a
non-empty run without whitespace and `rest` is empty or starts with whitespace,
yields the token `tok` and leaves `rest` unread. -/
theorem extract_token (ws tok rest : Str)
    (hws : ∀ c ∈ ws, isspace c = true)
    (htok : ∀ c ∈ tok, isspace c = false)
    (hne : tok ≠ [])
    (hrest : ∀ c, rest.head? = some c → isspace c = true) :
    extract (ws ++ tok ++ rest) = (tok, rest) := by
  unfold extract
  have h1 : (ws ++ tok ++ rest).dropWhile isspace = tok ++ rest := by
    rw [List.append_assoc, List.dropWhile_append_of_pos hws]
    cases tok with
    | nil => exact absurd rfl hne
    | cons a t =>
      have : isspace a = false := htok a (List.mem_cons_self a t)
      simp [List.dropWhile_cons, this]
  have htok2 : ∀ c ∈ tok, (fun c => !isspace c) c = true := by
    intro c hc
    simp [htok c hc]
  have h2 : (tok ++ rest).takeWhile (fun c => !isspace c) = tok := by
    rw [List.takeWhile_append_of_pos htok2]
    cases rest with
    | nil => simp
    | cons b r =>
      have : isspace b = true := hrest b rfl
      simp [List.takeWhile_cons, this]
  have h3 : (tok ++ rest).dropWhile (fun c => !isspace c) = rest := by
    rw [List.dropWhile_append_of_pos htok2]
    cases rest with
    | nil => simp
    | cons b r =>
      have : isspace b = true := hrest b rfl
      simp [List.dropWhile_cons, this]
  simp only [h1, h2, h3]

/-- The request `parse_request` returns is marked valid exactly when both the
method and the path came out non-empty. -/
theorem parse_request_valid (raw : Str) :
    (parse_request raw).valid = (!(parse_request raw).method.isEmpty &&
      !(parse_request raw).path.isEmpty) := by
  unfold parse_request
  simp only []
  split
  · rename_i h
    simp only [Bool.or_eq_true] at h
    rcases h with h | h <;> simp [h]
  · rename_i h
    simp only [Bool.or_eq_true, not_or, Bool.not_eq_true] at h
    split <;> simp [h.1, h.2]

/-- A request returned by `parse_request` that has the method `GET` and a
non-empty path is marked valid. -/
theorem valid_of_parsed (raw : Str) (hget : (parse_request raw).method = GET)
    (hpath : (parse_request raw).path ≠ []) : (parse_request raw).valid = true := by
  rw [parse_request_valid, hget]
  cases hp : (parse_request raw).path with
  | nil => exact absurd hp hpath
  | cons c r => rfl

/-- The branches of `build_response` for a valid GET request, in terms of the
path after the `/` to `/index.html` mapping of line 194. -/
theorem build_response_traced_get (WEB_ROOT : Str) (fs : FileSystem) (req : HttpRequest)
    (path : Str) (hvalid : req.valid = true) (hget : req.method = GET)
    (hpath : path = if req.path = "/".toList then "/index.html".toList else req.path) :
    build_response_traced WEB_ROOT fs req =
      if find path "..".toList ≠ none then (http_response 403 "Forbidden".toList, [])
      else if (read_file fs (WEB_ROOT ++ path)).isEmpty then
        (http_response 404 "Not Found".toList, [WEB_ROOT ++ path])
      else
        ("HTTP/1.1 200 OK\r\nContent-Type: text/html\r\nContent-Length: ".toList ++
          to_string (read_file fs (WEB_ROOT ++ path)).length ++ "\r\n\r\n".toList ++
          read_file fs (WEB_ROOT ++ path), [WEB_ROOT ++ path]) := by
  unfold build_response_traced
  have h1 : ¬ ((!req.valid) = true) := by rw [hvalid]; decide
  have h2 : ¬ (req.method ≠ GET) := fun h => h hget
  rw [if_neg h1, if_neg h2, ← hpath]

/-- A string without `..` makes `find` return `npos`. -/
theorem find_eq_none_of_no_dots (s : Str) (h : ¬ "..".toList <:+: s) :
    find s "..".toList = none := by
  by_contra hne
  exact h ((find_ne_none_iff _ _).mp hne)

/-- A request that passed both checks of `build_response` and whose path starts
with `/` and has no `..` reads exactly one file, `WEB_ROOT` followed by `/` and
a path without `..`. -/
theorem reads_under_root_of_leading_slash (WEB_ROOT : Str) (fs : FileSystem)
    (req : HttpRequest) (rel : Str) (hvalid : req.valid = true) (hget : req.method = GET)
    (hpath : req.path = '/' :: rel) (hdots : ¬ "..".toList <:+: req.path) :
    ∃ rel2 : Str, ¬ "..".toList <:+: rel2 ∧
      files_read WEB_ROOT fs req = [WEB_ROOT ++ '/' :: rel2] := by
  have hsub : ∀ q : Str, ¬ "..".toList <:+: '/' :: q → ¬ "..".toList <:+: q := by
    intro q hq h
    exact hq (List.infix_cons_iff.mpr (Or.inr h))
  have key : ∀ rel2 : Str, ¬ "..".toList <:+: '/' :: rel2 →
      ('/' :: rel2 = if req.path = "/".toList then "/index.html".toList else req.path) →
      files_read WEB_ROOT fs req = [WEB_ROOT ++ '/' :: rel2] := by
    intro rel2 hno hp
    unfold files_read
    rw [build_response_traced_get WEB_ROOT fs req _ hvalid hget hp,
      if_neg (fun h => h (find_eq_none_of_no_dots _ hno))]
    split <;> rfl
  by_cases hroot : req.path = "/".toList
  · exact ⟨"index.html".toList, by decide, key _ (by decide) (by rw [if_pos hroot]; rfl)⟩
  · exact ⟨rel, hsub rel (hpath ▸ hdots), key _ (hpath ▸ hdots) (by rw [if_neg hroot, hpath])⟩

/-- **C3** (document-root containment), at the failing input. With the default
root `./www`, the request `GET -old/secret.txt` is parsed as a valid GET request
whose path has no leading `/`; `build_response` then opens
`./www-old/secret.txt`, a file of the sibling directory `./www-old` that does
not lie under `./www/`, and answers 200 with its contents. -/
theorem containment_broken_without_leading_slash :
    parse_request "GET -old/secret.txt".toList = ⟨GET, "-old/secret.txt".toList, true⟩ ∧
    build_response_traced "./www".toList sibling_fs (parse_request "GET -old/secret.txt".toList) =
      ("HTTP/1.1 200 OK\r\nContent-Type: text/html\r\nContent-Length: 10\r\n\r\ntop secret".toList,
        ["./www-old/secret.txt".toList]) ∧
    ¬ ("./www/".toList <+: "./www-old/secret.txt".toList) := by
  refine ⟨by decide, by decide, by decide⟩

/-- **C4** (path containment, P5). For every document root and file system, a
GET request whose path contains `..` gets exactly
`http_response(403, "Forbidden")`, and `build_response` reads no file. A GET
request is a request with method `GET` that `parse_request` returned, or one
that is marked valid. -/
theorem path_containment_403 (WEB_ROOT : Str) (fs : FileSystem) (req : HttpRequest)
    (hreq : (∃ raw, req = parse_request raw) ∨ req.valid = true) (hget : req.method = GET)
    (hdots : "..".toList <:+: req.path) :
    build_response_traced WEB_ROOT fs req = (http_response 403 "Forbidden".toList, []) := by
  have hne : req.path ≠ "/".toList := by
    intro h
    rw [h] at hdots
    revert hdots
    decide
  have hnil : req.path ≠ [] := by
    intro h
    rw [h] at hdots
    revert hdots
    decide
  have hvalid : req.valid = true := by
    rcases hreq with ⟨raw, hraw⟩ | hv
    · subst hraw
      exact valid_of_parsed raw hget hnil
    · exact hv
  have hf : find req.path "..".toList ≠ none := (find_ne_none_iff _ _).mpr hdots
  rw [build_response_traced_get WEB_ROOT fs req req.path hvalid hget (by rw [if_neg hne]),
    if_pos hf]

/-- Witness of **C4**: the request line `GET /../etc/passwd`, under the root
`./www` where every path can be opened. -/
theorem path_containment_403_witness :
    (parse_request "GET /../etc/passwd".toList).method = GET ∧
    (parse_request "GET /../etc/passwd".toList).path = "/../etc/passwd".toList ∧
    build_response_traced "./www".toList (fun _ => some "root:x:0:0".toList)
      (parse_request "GET /../etc/passwd".toList) =
      ("HTTP/1.1 403 Forbidden\r\nContent-Length: 9\r\nContent-Type: text/plain\r\n\r\nForbidden".toList,
        []) :=
  ⟨by decide, by decide,
    (path_containment_403 "./www".toList (fun _ => some "root:x:0:0".toList)
      (parse_request "GET /../etc/passwd".toList) (Or.inl ⟨_, rfl⟩) (by decide)
      (by decide)).trans (by decide)⟩

/-- Counterexample to **C5** as stated for every file body: when `index.html`
exists and is empty, `GET /` is answered 404, not 200 with `Content-Length: 0`. -/
theorem successful_get_fails_on_empty_file :
    empty_index_fs ("./www".toList ++ "/index.html".toList) = some [] ∧
    build_response "./www".toList empty_index_fs (parse_request "GET /".toList) =
      http_response 404 "Not Found".toList ∧
    build_response "./www".toList empty_index_fs (parse_request "GET /".toList) ≠
      "HTTP/1.1 200 OK\r\nContent-Type: text/html\r\nContent-Length: ".toList ++
        to_string ([] : Str).length ++ "\r\n\r\n".toList ++ [] := by
  refine ⟨by decide, by decide, by decide⟩

/-- **C5** (successful GET), amended to non-empty files. For every document
root and every non-empty body `b` stored at `<root>/index.html`, the response to
the raw request `GET /` is the 200 response with `Content-Type: text/html`,
`Content-Length` the decimal length of `b`, and body `b`; the one file read is
`<root>/index.html`. -/
theorem successful_get (WEB_ROOT : Str) (fs : FileSystem) (b : Str)
    (hfile : fs (WEB_ROOT ++ "/index.html".toList) = some b) (hb : b ≠ []) :
    build_response_traced WEB_ROOT fs (parse_request "GET /".toList) =
      ("HTTP/1.1 200 OK\r\nContent-Type: text/html\r\nContent-Length: ".toList ++
        to_string b.length ++ "\r\n\r\n".toList ++ b,
       [WEB_ROOT ++ "/index.html".toList]) ∧
    to_string b.length = (Nat.repr b.length).toList := by
  have hparse : parse_request "GET /".toList = ⟨GET, "/".toList, true⟩ := by decide
  have hf : find "/index.html".toList "..".toList = none := by decide
  have hread : read_file fs (WEB_ROOT ++ "/index.html".toList) = b := by
    unfold read_file
    rw [hfile]
  have hb2 : ¬ (b.isEmpty = true) := by
    cases b with
    | nil => exact absurd rfl hb
    | cons c r => simp
  refine ⟨?_, rfl⟩
  rw [hparse, build_response_traced_get WEB_ROOT fs _ "/index.html".toList rfl rfl (by decide),
    if_neg (fun h => h hf), hread, if_neg hb2]

/-- Witness of **C5**: `index.html` with body `hello` under `./www`. -/
theorem successful_get_witness :
    build_response "./www".toList hello_fs (parse_request "GET /".toList) =
      "HTTP/1.1 200 OK\r\nContent-Type: text/html\r\nContent-Length: 5\r\n\r\nhello".toList :=
  (congrArg Prod.fst (successful_get "./www".toList hello_fs "hello".toList
    (by decide) (by decide)).1).trans (by decide)

/-- **C6** (two-stage method validation). When the raw request starts, after
optional whitespace `ws1`, with a token `m` other than `GET`, then whitespace
`ws2`, then a non-empty token `p` (followed by the end of input or by
whitespace), `parse_request` returns method `m`, path `p` and `valid = true`,
and `build_response` answers `http_response(405, "Method Not Allowed")` for
every document root and file system, reading no file. -/
theorem two_stage_method_validation (WEB_ROOT : Str) (fs : FileSystem)
    (ws1 m ws2 p rest : Str)
    (hws1 : ∀ c ∈ ws1, isspace c = true)
    (hm : ∀ c ∈ m, isspace c = false) (hmne : m ≠ []) (hmget : m ≠ GET)
    (hws2 : ∀ c ∈ ws2, isspace c = true) (hws2ne : ws2 ≠ [])
    (hp : ∀ c ∈ p, isspace c = false) (hpne : p ≠ [])
    (hrest : ∀ c, rest.head? = some c → isspace c = true) :
    parse_request (ws1 ++ m ++ ws2 ++ p ++ rest) = ⟨m, p, true⟩ ∧
    build_response_traced WEB_ROOT fs (parse_request (ws1 ++ m ++ ws2 ++ p ++ rest)) =
      (http_response 405 "Method Not Allowed".toList, []) := by
  have hhead : ∀ c, (ws2 ++ p ++ rest).head? = some c → isspace c = true := by
    intro c hc
    cases ws2 with
    | nil => exact absurd rfl hws2ne
    | cons w ws =>
      simp only [List.cons_append, List.head?_cons, Option.some.injEq] at hc
      exact hc ▸ hws2 w (List.mem_cons_self w ws)
  have e1 : extract (ws1 ++ m ++ ws2 ++ p ++ rest) = (m, ws2 ++ p ++ rest) := by
    have := extract_token ws1 m (ws2 ++ p ++ rest) hws1 hm hmne hhead
    simpa only [List.append_assoc] using this
  have e2 : extract (ws2 ++ p ++ rest) = (p, rest) := extract_token ws2 p rest hws2 hp hpne hrest
  have hm2 : m.isEmpty = false := by
    cases m with
    | nil => exact absurd rfl hmne
    | cons c r => rfl
  have hp2 : p.isEmpty = false := by
    cases p with
    | nil => exact absurd rfl hpne
    | cons c r => rfl
  have hparse : parse_request (ws1 ++ m ++ ws2 ++ p ++ rest) = ⟨m, p, true⟩ := by
    unfold parse_request
    simp only [e1, e2, hm2, hp2, Bool.or_self, Bool.false_eq_true, if_false]
    split <;> rfl
  refine ⟨hparse, ?_⟩
  rw [hparse]
  unfold build_response_traced
  have h1 : ¬ ((!true) = true) := by decide
  simp only []
  rw [if_neg h1, if_pos hmget]

/-- Witness of **C6**: the request line `POST /`, under the root `./www` that
holds `index.html`. -/
theorem two_stage_method_validation_witness :
    parse_request "POST /".toList = ⟨"POST".toList, "/".toList, true⟩ ∧
    build_response_traced "./www".toList hello_fs (parse_request "POST /".toList) =
      ("HTTP/1.1 405 Method Not Allowed\r\nContent-Length: 18\r\nContent-Type: text/plain\r\n\r\nMethod Not Allowed".toList,
        []) :=
  have h := two_stage_method_validation "./www".toList hello_fs [] "POST".toList " ".toList
    "/".toList [] (by decide) (by decide) (by decide) (by decide) (by decide) (by decide)
    (by decide) (by decide) (by decide)
  ⟨h.1, h.2.trans (by decide)⟩

/-- **C8** (root mapping, P6). For every document root, file system and
validity flag, `build_response` returns the same string and reads the same
files for the GET request with path `/` as for the one with path
`/index.html`; for a request accepted by the parser the one file read is
`<root>/index.html` in both cases. -/
theorem root_mapping (WEB_ROOT : Str) (fs : FileSystem) (v : Bool) :
    build_response_traced WEB_ROOT fs ⟨GET, "/".toList, v⟩ =
      build_response_traced WEB_ROOT fs ⟨GET, "/index.html".toList, v⟩ ∧
    files_read WEB_ROOT fs ⟨GET, "/".toList, true⟩ = [WEB_ROOT ++ "/index.html".toList] ∧
    files_read WEB_ROOT fs ⟨GET, "/index.html".toList, true⟩ =
      [WEB_ROOT ++ "/index.html".toList] := by
  have hf : find "/index.html".toList "..".toList = none := by decide
  have ha := build_response_traced_get WEB_ROOT fs ⟨GET, "/".toList, true⟩
    "/index.html".toList rfl rfl (by decide)
  have hb := build_response_traced_get WEB_ROOT fs ⟨GET, "/index.html".toList, true⟩
    "/index.html".toList rfl rfl (by decide)
  rw [if_neg (fun h => h hf)] at ha hb
  refine ⟨?_, ?_, ?_⟩
  · cases v with
    | false => rfl
    | true => rw [ha, hb]
  · unfold files_read
    rw [ha]
    split <;> rfl
  · unfold files_read
    rw [hb]
    split <;> rfl

/-! ## Facts about the shutdown signal -/

/-- **C9** (idempotent shutdown signal, P4). From any state, running
`signal_handler` twice gives the state that running it once gives; after the
first run `shutdown_requested` is true and the second run keeps it true and
changes nothing. -/
theorem signal_handler_idempotent (s : SignalState) :
    signal_handler (signal_handler s) = signal_handler s ∧
    (signal_handler s).shutdown_requested = true ∧
    (signal_handler (signal_handler s)).shutdown_requested = true ∧
    (signal_handler s).server_fd_global = s.server_fd_global := by
  have h1 : (signal_handler s).shutdown_requested = true := by
    unfold signal_handler
    simp only []
    split <;> rfl
  have h2 : signal_handler (signal_handler s) = signal_handler s := by
    unfold signal_handler close
    by_cases h : s.server_fd_global = -1
    · simp [h]
    · simp [h]
  have h3 : (signal_handler s).server_fd_global = s.server_fd_global := by
    unfold signal_handler
    simp only []
    split <;> rfl
  exact ⟨h2, h1, h2.symm ▸ h1, h3⟩

/-! ## Facts about the thread pool -/

/-- Changing the program counter of a worker outside the first `n` leaves the
tasks in flight among the first `n` as they are. -/
theorem in_flight_update_of_le (w : Nat → WorkerPc) (i : Nat) (pc : WorkerPc) (n : Nat)
    (h : n ≤ i) : in_flight (Function.update w i pc) n = in_flight w n := by
  induction n with
  | zero => rfl
  | succ m ih =>
    have hm : m ≠ i := by omega
    simp only [in_flight, ih (by omega), Function.update_noteq hm]

/-- Changing the program counter of worker `i < n` exchanges, among the tasks
in flight, the task it was calling for the one it calls now. -/
theorem in_flight_update_count (w : Nat → WorkerPc) (i : Nat) (pc : WorkerPc) (n : Nat)
    (h : i < n) (a : Nat) :
    (in_flight (Function.update w i pc) n).count a + (running_task (w i)).count a =
      (in_flight w n).count a + (running_task pc).count a := by
  induction n with
  | zero => omega
  | succ m ih =>
    by_cases hm : i = m
    · subst hm
      simp only [in_flight, in_flight_update_of_le w i pc i (le_refl i), Function.update_same,
        List.count_append]
      omega
    · have hlt : i < m := by omega
      have := ih hlt
      simp only [in_flight, Function.update_noteq (Ne.symm hm), List.count_append]
      omega

/-- Workers that have all returned call no task. -/
theorem in_flight_of_exited (w : Nat → WorkerPc) (n : Nat)
    (h : ∀ i, i < n → w i = WorkerPc.exited) : in_flight w n = [] := by
  induction n with
  | zero => rfl
  | succ m ih =>
    simp only [in_flight, ih (fun i hi => h i (by omega)), h m (by omega), running_task,
      List.append_nil]

/-- The invariant holds right after the constructor. -/
theorem inv_init (n N : Nat) : Inv n N init := by
  constructor <;> simp [init, submitted]
  intro a
  have : in_flight (fun _ => WorkerPc.idle) n = [] := by
    induction n with
    | zero => rfl
    | succ m ih => simp [in_flight, ih, running_task]
  simp [this]

/-- The actions of the owning thread keep the invariant. -/
theorem inv_main_step (n N : Nat) (s : PoolState) (h : Inv n N s) :
    Inv n N (main_step n N s) := by
  unfold main_step
  split
  · rename_i k hk
    have hnostop : s.stop ≠ true := fun hs => (h.stop_late hs k).1 hk
    split
    · rename_i hlt
      split
      · rename_i hfree
        exact
          { lock_worker := by
              intro i
              have := h.lock_worker i
              rw [hfree] at this
              constructor
              · intro hc
                cases hc
              · intro hc
                exact absurd (this.mpr hc) (by simp)
            lock_main := ⟨fun _ => ⟨k, rfl⟩, fun _ => rfl⟩
            past_wait := h.past_wait
            no_fault := h.no_fault
            stop_late := fun hs => absurd hs hnostop
            bound_submitting := by
              intro k2 hk2
              cases hk2
            bound_pushing := by
              intro k2 hk2
              cases hk2
              exact hlt
            exited_drained := h.exited_drained
            joined := by
              intro j hj
              cases hj
            all_joined := by
              intro hr
              cases hr
            conservation := by
              intro a
              have := h.conservation a
              rw [hk] at this
              exact this }
      · exact h
    · rename_i hge
      have hkN : k = N := by
        have := h.bound_submitting k hk
        omega
      exact
        { lock_worker := h.lock_worker
          lock_main := by
            have := h.lock_main
            rw [hk] at this
            constructor
            · intro hc
              obtain ⟨k2, hk2⟩ := this.mp hc
              cases hk2
            · intro hc
              obtain ⟨k2, hk2⟩ := hc
              cases hk2
          past_wait := fun _ _ => Or.inl rfl
          no_fault := h.no_fault
          stop_late := by
            intro _ k2
            constructor <;> intro hc <;> cases hc
          bound_submitting := by
            intro k2 hk2
            cases hk2
          bound_pushing := by
            intro k2 hk2
            cases hk2
          exited_drained := fun i hi => ⟨rfl, (h.exited_drained i hi).2⟩
          joined := by
            intro j hj i hi
            cases hj
            omega
          all_joined := by
            intro hr
            cases hr
          conservation := by
            intro a
            have := h.conservation a
            rw [hk] at this
            simp only [submitted] at this ⊢
            rw [← hkN]
            exact this }
  · rename_i k hk
    have hnostop : s.stop ≠ true := fun hs => (h.stop_late hs k).2 hk
    have hheld : s.holder = some Thread.main := h.lock_main.mpr ⟨k, hk⟩
    exact
      { lock_worker := by
          intro i
          have := h.lock_worker i
          rw [hheld] at this
          constructor
          · intro hc
            cases hc
          · intro hc
            exact absurd (this.mpr hc) (by simp)
        lock_main := by
          constructor
          · intro hc
            cases hc
          · intro hc
            obtain ⟨k2, hk2⟩ := hc
            cases hk2
        past_wait := by
          intro _ _
          right
          simp
        no_fault := h.no_fault
        stop_late := fun hs => absurd hs hnostop
        bound_submitting := by
          intro k2 hk2
          cases hk2
          exact h.bound_pushing k hk
        bound_pushing := by
          intro k2 hk2
          cases hk2
        exited_drained := fun i hi => absurd (h.exited_drained i hi).1 hnostop
        joined := by
          intro j hj
          cases hj
        all_joined := by
          intro hr
          cases hr
        conservation := by
          intro a
          have := h.conservation a
          rw [hk] at this
          simp only [submitted, List.range_succ, List.count_append] at this ⊢
          omega }
  · rename_i i hi
    split
    · rename_i hlt
      split
      · rename_i hex
        exact
          { lock_worker := h.lock_worker
            lock_main := by
              have := h.lock_main
              rw [hi] at this
              constructor
              · intro hc
                obtain ⟨k2, hk2⟩ := this.mp hc
                cases hk2
              · intro hc
                obtain ⟨k2, hk2⟩ := hc
                cases hk2
            past_wait := h.past_wait
            no_fault := h.no_fault
            stop_late := by
              intro _ k2
              constructor <;> intro hc <;> cases hc
            bound_submitting := by
              intro k2 hk2
              cases hk2
            bound_pushing := by
              intro k2 hk2
              cases hk2
            exited_drained := h.exited_drained
            joined := by
              intro j hj i2 hi2
              cases hj
              by_cases he : i2 = i
              · rw [he]
                exact hex
              · exact h.joined i hi i2 (by omega)
            all_joined := by
              intro hr
              cases hr
            conservation := by
              intro a
              have := h.conservation a
              rw [hi] at this
              exact this }
      · exact h
    · rename_i hge
      exact
        { lock_worker := h.lock_worker
          lock_main := by
            have := h.lock_main
            rw [hi] at this
            constructor
            · intro hc
              obtain ⟨k2, hk2⟩ := this.mp hc
              cases hk2
            · intro hc
              obtain ⟨k2, hk2⟩ := hc
              cases hk2
          past_wait := h.past_wait
          no_fault := h.no_fault
          stop_late := by
            intro _ k2
            constructor <;> intro hc <;> cases hc
          bound_submitting := by
            intro k2 hk2
            cases hk2
          bound_pushing := by
            intro k2 hk2
            cases hk2
          exited_drained := h.exited_drained
          joined := by
            intro j hj
            cases hj
          all_joined := fun _ i2 hi2 => h.joined i hi i2 (by omega)
          conservation := by
            intro a
            have := h.conservation a
            rw [hi] at this
            exact this }
  · exact h

/-- A property of every worker survives the update of worker `i` when it holds
of the new program counter of `i`. -/
theorem update_cases (w : Nat → WorkerPc) (i : Nat) (pc : WorkerPc)
    (P : Nat → WorkerPc → Prop) (hold : ∀ j, j ≠ i → P j (w j)) (hnew : P i pc) :
    ∀ j, P j (Function.update w i pc j) := by
  intro j
  by_cases hj : j = i
  · subst hj
    rw [Function.update_same]
    exact hnew
  · rw [Function.update_noteq hj]
    exact hold j hj

/-- Mutex bookkeeping when worker `i` acquires the free mutex. -/
theorem lock_worker_acquire (n N : Nat) (s : PoolState) (h : Inv n N s) (i : Nat)
    (hfree : s.holder = none) :
    ∀ j, some (Thread.worker i) = some (Thread.worker j) ↔
      (Function.update s.workers i WorkerPc.pred j = WorkerPc.pred ∨
        Function.update s.workers i WorkerPc.pred j = WorkerPc.locked) := by
  apply update_cases s.workers i WorkerPc.pred
    (fun j c => some (Thread.worker i) = some (Thread.worker j) ↔
      (c = WorkerPc.pred ∨ c = WorkerPc.locked))
  · intro j hj
    have := h.lock_worker j
    rw [hfree] at this
    constructor
    · intro hc
      injection hc with hc
      injection hc with hc
      exact absurd hc.symm hj
    · intro hc
      exact absurd (this.mpr hc) (by simp)
  · exact ⟨fun _ => Or.inl rfl, fun _ => rfl⟩

/-- Mutex bookkeeping when worker `i` leaves its critical section. -/
theorem lock_worker_release (n N : Nat) (s : PoolState) (h : Inv n N s) (i : Nat)
    (pc : WorkerPc) (hin : s.workers i = WorkerPc.pred ∨ s.workers i = WorkerPc.locked)
    (h1 : pc ≠ WorkerPc.pred) (h2 : pc ≠ WorkerPc.locked) :
    ∀ j, (none : Option Thread) = some (Thread.worker j) ↔
      (Function.update s.workers i pc j = WorkerPc.pred ∨
        Function.update s.workers i pc j = WorkerPc.locked) := by
  have hheld : s.holder = some (Thread.worker i) := (h.lock_worker i).mpr hin
  apply update_cases s.workers i pc
    (fun j c => (none : Option Thread) = some (Thread.worker j) ↔
      (c = WorkerPc.pred ∨ c = WorkerPc.locked))
  · intro j hj
    constructor
    · intro hc
      cases hc
    · intro hc
      have := (h.lock_worker j).mpr hc
      rw [hheld] at this
      injection this with this
      injection this with this
      exact absurd this.symm hj
  · constructor
    · intro hc
      cases hc
    · rintro (hc | hc)
      · exact absurd hc h1
      · exact absurd hc h2

/-- Mutex bookkeeping when worker `i` moves inside its critical section. -/
theorem lock_worker_inside (n N : Nat) (s : PoolState) (h : Inv n N s) (i : Nat)
    (pc : WorkerPc) (hin : s.workers i = WorkerPc.pred ∨ s.workers i = WorkerPc.locked)
    (hpc : pc = WorkerPc.pred ∨ pc = WorkerPc.locked) :
    ∀ j, s.holder = some (Thread.worker j) ↔
      (Function.update s.workers i pc j = WorkerPc.pred ∨
        Function.update s.workers i pc j = WorkerPc.locked) := by
  have hheld : s.holder = some (Thread.worker i) := (h.lock_worker i).mpr hin
  apply update_cases s.workers i pc
    (fun j c => s.holder = some (Thread.worker j) ↔ (c = WorkerPc.pred ∨ c = WorkerPc.locked))
  · intro j _
    exact h.lock_worker j
  · exact ⟨fun _ => hpc, fun _ => hheld⟩

/-- Mutex bookkeeping when worker `i` moves outside its critical section. -/
theorem lock_worker_outside (n N : Nat) (s : PoolState) (h : Inv n N s) (i : Nat)
    (pc : WorkerPc) (hout1 : s.workers i ≠ WorkerPc.pred) (hout2 : s.workers i ≠ WorkerPc.locked)
    (h1 : pc ≠ WorkerPc.pred) (h2 : pc ≠ WorkerPc.locked) :
    ∀ j, s.holder = some (Thread.worker j) ↔
      (Function.update s.workers i pc j = WorkerPc.pred ∨
        Function.update s.workers i pc j = WorkerPc.locked) := by
  apply update_cases s.workers i pc
    (fun j c => s.holder = some (Thread.worker j) ↔ (c = WorkerPc.pred ∨ c = WorkerPc.locked))
  · intro j _
    exact h.lock_worker j
  · constructor
    · intro hc
      rcases (h.lock_worker i).mp hc with hc | hc
      · exact absurd hc hout1
      · exact absurd hc hout2
    · rintro (hc | hc)
      · exact absurd hc h1
      · exact absurd hc h2

/-- The mutex is not the owning thread's when a worker owns it or when it is
free. -/
theorem lock_main_of (n N : Nat) (s : PoolState) (h : Inv n N s) (holder : Option Thread)
    (hold : s.holder ≠ some Thread.main) (hnew : holder ≠ some Thread.main) :
    holder = some Thread.main ↔ ∃ k, s.main = MainPc.pushing k :=
  ⟨fun hc => absurd hc hnew, fun hc => absurd (h.lock_main.mpr hc) hold⟩

/-- The workers joined so far stay joined when a worker that has not returned
moves. -/
theorem joined_update (n N : Nat) (s : PoolState) (h : Inv n N s) (i : Nat) (pc : WorkerPc)
    (hlive : s.workers i ≠ WorkerPc.exited) :
    ∀ j, s.main = MainPc.joining j → ∀ i2, i2 < j →
      Function.update s.workers i pc i2 = WorkerPc.exited := by
  intro j hj i2 hi2
  by_cases he : i2 = i
  · subst he
    exact absurd (h.joined j hj i2 hi2) hlive
  · rw [Function.update_noteq he]
    exact h.joined j hj i2 hi2

/-- A worker that has not returned moves only before `shutdown` returns. -/
theorem all_joined_update (n N : Nat) (s : PoolState) (h : Inv n N s) (i : Nat)
    (pc : WorkerPc) (hi : i < n) (hlive : s.workers i ≠ WorkerPc.exited) :
    s.main = MainPc.returned → ∀ i2, i2 < n →
      Function.update s.workers i pc i2 = WorkerPc.exited := by
  intro hr
  exact absurd (h.all_joined hr i hi) hlive

/-- The actions of a worker keep the invariant. -/
theorem inv_worker_step (throws : Nat → Bool) (n N : Nat) (s : PoolState) (i : Nat)
    (hi : i < n) (h : Inv n N s) : Inv n N (worker_step throws s i) := by
  unfold worker_step
  split
  · -- line 119: lock the mutex
    rename_i hpc
    split
    · rename_i hfree
      exact
        { lock_worker := lock_worker_acquire n N s h i hfree
          lock_main := lock_main_of n N s h _ (by rw [hfree]; simp) (by simp)
          past_wait := update_cases s.workers i WorkerPc.pred
            (fun _ c => c = WorkerPc.locked → s.stop = true ∨ s.tasks ≠ [])
            (fun j _ => h.past_wait j) (fun hc => by cases hc)
          no_fault := update_cases s.workers i WorkerPc.pred (fun _ c => c ≠ WorkerPc.fault)
            (fun j _ => h.no_fault j) (fun hc => by cases hc)
          stop_late := h.stop_late
          bound_submitting := h.bound_submitting
          bound_pushing := h.bound_pushing
          exited_drained := update_cases s.workers i WorkerPc.pred
            (fun _ c => c = WorkerPc.exited → s.stop = true ∧ s.tasks = [])
            (fun j _ => h.exited_drained j) (fun hc => by cases hc)
          joined := joined_update n N s h i _ (by rw [hpc]; simp)
          all_joined := all_joined_update n N s h i _ hi (by rw [hpc]; simp)
          conservation := by
            intro a
            have h1 := h.conservation a
            have h2 := in_flight_update_count s.workers i WorkerPc.pred n hi a
            rw [hpc] at h2
            simp only [running_task, List.count_nil] at h2
            show s.executed.count a +
              (in_flight (Function.update s.workers i WorkerPc.pred) n).count a +
              s.tasks.count a = (List.range (submitted N s.main)).count a
            omega }
    · exact h
  · -- lines 120-122: the wait predicate
    rename_i hpc
    have hheld : s.holder = some (Thread.worker i) := (h.lock_worker i).mpr (Or.inl hpc)
    split
    · rename_i hcond
      exact
        { lock_worker := lock_worker_inside n N s h i _ (Or.inl hpc) (Or.inr rfl)
          lock_main := h.lock_main
          past_wait := update_cases s.workers i WorkerPc.locked
            (fun _ c => c = WorkerPc.locked → s.stop = true ∨ s.tasks ≠ [])
            (fun j _ => h.past_wait j)
            (fun _ => by
              cases hst : s.stop with
              | true => exact Or.inl rfl
              | false =>
                right
                intro hnil
                rw [hst, hnil] at hcond
                exact absurd hcond (by decide))
          no_fault := update_cases s.workers i WorkerPc.locked (fun _ c => c ≠ WorkerPc.fault)
            (fun j _ => h.no_fault j) (fun hc => by cases hc)
          stop_late := h.stop_late
          bound_submitting := h.bound_submitting
          bound_pushing := h.bound_pushing
          exited_drained := update_cases s.workers i WorkerPc.locked
            (fun _ c => c = WorkerPc.exited → s.stop = true ∧ s.tasks = [])
            (fun j _ => h.exited_drained j) (fun hc => by cases hc)
          joined := joined_update n N s h i _ (by rw [hpc]; simp)
          all_joined := all_joined_update n N s h i _ hi (by rw [hpc]; simp)
          conservation := by
            intro a
            have h1 := h.conservation a
            have h2 := in_flight_update_count s.workers i WorkerPc.locked n hi a
            rw [hpc] at h2
            simp only [running_task, List.count_nil] at h2
            show s.executed.count a +
              (in_flight (Function.update s.workers i WorkerPc.locked) n).count a +
              s.tasks.count a = (List.range (submitted N s.main)).count a
            omega }
    · exact
        { lock_worker := lock_worker_release n N s h i _ (Or.inl hpc)
            (fun hc => by cases hc) (fun hc => by cases hc)
          lock_main := lock_main_of n N s h _ (by rw [hheld]; simp) (by simp)
          past_wait := update_cases s.workers i WorkerPc.waiting
            (fun _ c => c = WorkerPc.locked → s.stop = true ∨ s.tasks ≠ [])
            (fun j _ => h.past_wait j) (fun hc => by cases hc)
          no_fault := update_cases s.workers i WorkerPc.waiting (fun _ c => c ≠ WorkerPc.fault)
            (fun j _ => h.no_fault j) (fun hc => by cases hc)
          stop_late := h.stop_late
          bound_submitting := h.bound_submitting
          bound_pushing := h.bound_pushing
          exited_drained := update_cases s.workers i WorkerPc.waiting
            (fun _ c => c = WorkerPc.exited → s.stop = true ∧ s.tasks = [])
            (fun j _ => h.exited_drained j) (fun hc => by cases hc)
          joined := joined_update n N s h i _ (by rw [hpc]; simp)
          all_joined := all_joined_update n N s h i _ hi (by rw [hpc]; simp)
          conservation := by
            intro a
            have h1 := h.conservation a
            have h2 := in_flight_update_count s.workers i WorkerPc.waiting n hi a
            rw [hpc] at h2
            simp only [running_task, List.count_nil] at h2
            show s.executed.count a +
              (in_flight (Function.update s.workers i WorkerPc.waiting) n).count a +
              s.tasks.count a = (List.range (submitted N s.main)).count a
            omega }
  · -- woken up inside `condition.wait`: lock the mutex again
    rename_i hpc
    split
    · rename_i hfree
      exact
        { lock_worker := lock_worker_acquire n N s h i hfree
          lock_main := lock_main_of n N s h _ (by rw [hfree]; simp) (by simp)
          past_wait := update_cases s.workers i WorkerPc.pred
            (fun _ c => c = WorkerPc.locked → s.stop = true ∨ s.tasks ≠ [])
            (fun j _ => h.past_wait j) (fun hc => by cases hc)
          no_fault := update_cases s.workers i WorkerPc.pred (fun _ c => c ≠ WorkerPc.fault)
            (fun j _ => h.no_fault j) (fun hc => by cases hc)
          stop_late := h.stop_late
          bound_submitting := h.bound_submitting
          bound_pushing := h.bound_pushing
          exited_drained := update_cases s.workers i WorkerPc.pred
            (fun _ c => c = WorkerPc.exited → s.stop = true ∧ s.tasks = [])
            (fun j _ => h.exited_drained j) (fun hc => by cases hc)
          joined := joined_update n N s h i _ (by rw [hpc]; simp)
          all_joined := all_joined_update n N s h i _ hi (by rw [hpc]; simp)
          conservation := by
            intro a
            have h1 := h.conservation a
            have h2 := in_flight_update_count s.workers i WorkerPc.pred n hi a
            rw [hpc] at h2
            simp only [running_task, List.count_nil] at h2
            show s.executed.count a +
              (in_flight (Function.update s.workers i WorkerPc.pred) n).count a +
              s.tasks.count a = (List.range (submitted N s.main)).count a
            omega }
    · exact h
  · -- lines 123-125
    rename_i hpc
    have hheld : s.holder = some (Thread.worker i) := (h.lock_worker i).mpr (Or.inr hpc)
    have hothers : ∀ j, j ≠ i → s.workers j ≠ WorkerPc.locked := by
      intro j hj hc
      have := (h.lock_worker j).mpr (Or.inr hc)
      rw [hheld] at this
      injection this with this
      injection this with this
      exact hj this.symm
    split
    · rename_i hcond
      have hstop : s.stop = true := by
        cases hst : s.stop with
        | true => rfl
        | false => rw [hst] at hcond; simp at hcond
      have hempty : s.tasks = [] := by
        cases htk : s.tasks with
        | nil => rfl
        | cons t r => rw [hstop, htk] at hcond; simp at hcond
      exact
        { lock_worker := lock_worker_release n N s h i _ (Or.inr hpc)
            (fun hc => by cases hc) (fun hc => by cases hc)
          lock_main := lock_main_of n N s h _ (by rw [hheld]; simp) (by simp)
          past_wait := update_cases s.workers i WorkerPc.exited
            (fun _ c => c = WorkerPc.locked → s.stop = true ∨ s.tasks ≠ [])
            (fun j _ => h.past_wait j) (fun hc => by cases hc)
          no_fault := update_cases s.workers i WorkerPc.exited (fun _ c => c ≠ WorkerPc.fault)
            (fun j _ => h.no_fault j) (fun hc => by cases hc)
          stop_late := h.stop_late
          bound_submitting := h.bound_submitting
          bound_pushing := h.bound_pushing
          exited_drained := update_cases s.workers i WorkerPc.exited
            (fun _ c => c = WorkerPc.exited → s.stop = true ∧ s.tasks = [])
            (fun j _ => h.exited_drained j) (fun _ => ⟨hstop, hempty⟩)
          joined := fun j hj => update_cases s.workers i WorkerPc.exited
            (fun i2 c => i2 < j → c = WorkerPc.exited)
            (fun i2 _ => h.joined j hj i2) (fun _ => rfl)
          all_joined := fun hr => update_cases s.workers i WorkerPc.exited
            (fun i2 c => i2 < n → c = WorkerPc.exited)
            (fun i2 _ => h.all_joined hr i2) (fun _ => rfl)
          conservation := by
            intro a
            have h1 := h.conservation a
            have h2 := in_flight_update_count s.workers i WorkerPc.exited n hi a
            rw [hpc] at h2
            simp only [running_task, List.count_nil] at h2
            show s.executed.count a +
              (in_flight (Function.update s.workers i WorkerPc.exited) n).count a +
              s.tasks.count a = (List.range (submitted N s.main)).count a
            omega }
    · rename_i hcond
      split
      · rename_i t rest htk
        exact
          { lock_worker := lock_worker_release n N s h i _ (Or.inr hpc)
              (fun hc => by cases hc) (fun hc => by cases hc)
            lock_main := lock_main_of n N s h _ (by rw [hheld]; simp) (by simp)
            past_wait := update_cases s.workers i (WorkerPc.running t)
              (fun _ c => c = WorkerPc.locked → s.stop = true ∨ rest ≠ [])
              (fun j hj hc => absurd hc (hothers j hj)) (fun hc => by cases hc)
            no_fault := update_cases s.workers i (WorkerPc.running t)
              (fun _ c => c ≠ WorkerPc.fault)
              (fun j _ => h.no_fault j) (fun hc => by cases hc)
            stop_late := h.stop_late
            bound_submitting := h.bound_submitting
            bound_pushing := h.bound_pushing
            exited_drained := update_cases s.workers i (WorkerPc.running t)
              (fun _ c => c = WorkerPc.exited → s.stop = true ∧ rest = [])
              (fun j _ hc => by
                have := (h.exited_drained j hc).2
                rw [htk] at this
                cases this)
              (fun hc => by cases hc)
            joined := joined_update n N s h i _ (by rw [hpc]; simp)
            all_joined := all_joined_update n N s h i _ hi (by rw [hpc]; simp)
            conservation := by
              intro a
              have h1 := h.conservation a
              have h2 := in_flight_update_count s.workers i (WorkerPc.running t) n hi a
              have h3 : s.tasks = [t] ++ rest := htk
              rw [hpc] at h2
              rw [h3, List.count_append] at h1
              simp only [running_task, List.count_nil] at h2
              show s.executed.count a +
                (in_flight (Function.update s.workers i (WorkerPc.running t)) n).count a +
                rest.count a = (List.range (submitted N s.main)).count a
              omega }
      · rename_i htk
        exfalso
        rcases h.past_wait i hpc with hst | hne
        · rw [hst, htk] at hcond
          exact hcond rfl
        · exact hne htk
  · -- line 127: the call of the task
    rename_i t hpc
    have hnotin1 : s.workers i ≠ WorkerPc.pred := by rw [hpc]; simp
    have hnotin2 : s.workers i ≠ WorkerPc.locked := by rw [hpc]; simp
    split
    · exact
        { lock_worker := lock_worker_outside n N s h i _ hnotin1 hnotin2
            (fun hc => by cases hc) (fun hc => by cases hc)
          lock_main := h.lock_main
          past_wait := update_cases s.workers i WorkerPc.threw
            (fun _ c => c = WorkerPc.locked → s.stop = true ∨ s.tasks ≠ [])
            (fun j _ => h.past_wait j) (fun hc => by cases hc)
          no_fault := update_cases s.workers i WorkerPc.threw (fun _ c => c ≠ WorkerPc.fault)
            (fun j _ => h.no_fault j) (fun hc => by cases hc)
          stop_late := h.stop_late
          bound_submitting := h.bound_submitting
          bound_pushing := h.bound_pushing
          exited_drained := update_cases s.workers i WorkerPc.threw
            (fun _ c => c = WorkerPc.exited → s.stop = true ∧ s.tasks = [])
            (fun j _ => h.exited_drained j) (fun hc => by cases hc)
          joined := joined_update n N s h i _ (by rw [hpc]; simp)
          all_joined := all_joined_update n N s h i _ hi (by rw [hpc]; simp)
          conservation := by
            intro a
            have h1 := h.conservation a
            have h2 := in_flight_update_count s.workers i WorkerPc.threw n hi a
            rw [hpc] at h2
            simp only [running_task, List.count_nil] at h2
            show (s.executed ++ [t]).count a +
              (in_flight (Function.update s.workers i WorkerPc.threw) n).count a +
              s.tasks.count a = (List.range (submitted N s.main)).count a
            rw [List.count_append]
            omega }
    · exact
        { lock_worker := lock_worker_outside n N s h i _ hnotin1 hnotin2
            (fun hc => by cases hc) (fun hc => by cases hc)
          lock_main := h.lock_main
          past_wait := update_cases s.workers i WorkerPc.idle
            (fun _ c => c = WorkerPc.locked → s.stop = true ∨ s.tasks ≠ [])
            (fun j _ => h.past_wait j) (fun hc => by cases hc)
          no_fault := update_cases s.workers i WorkerPc.idle (fun _ c => c ≠ WorkerPc.fault)
            (fun j _ => h.no_fault j) (fun hc => by cases hc)
          stop_late := h.stop_late
          bound_submitting := h.bound_submitting
          bound_pushing := h.bound_pushing
          exited_drained := update_cases s.workers i WorkerPc.idle
            (fun _ c => c = WorkerPc.exited → s.stop = true ∧ s.tasks = [])
            (fun j _ => h.exited_drained j) (fun hc => by cases hc)
          joined := joined_update n N s h i _ (by rw [hpc]; simp)
          all_joined := all_joined_update n N s h i _ hi (by rw [hpc]; simp)
          conservation := by
            intro a
            have h1 := h.conservation a
            have h2 := in_flight_update_count s.workers i WorkerPc.idle n hi a
            rw [hpc] at h2
            simp only [running_task, List.count_nil] at h2
            show (s.executed ++ [t]).count a +
              (in_flight (Function.update s.workers i WorkerPc.idle) n).count a +
              s.tasks.count a = (List.range (submitted N s.main)).count a
            rw [List.count_append]
            omega }
  · exact h
  · exact h
  · exact h

/-- Every step keeps the invariant. -/
theorem inv_step (throws : Nat → Bool) (n N : Nat) (s : PoolState) (th : Thread)
    (h : Inv n N s) : Inv n N (step throws n N s th) := by
  unfold step
  split
  · exact inv_main_step n N s h
  · split
    · rename_i hi
      exact inv_worker_step throws n N s _ hi h
    · exact h

/-- The invariant holds after every interleaving. -/
theorem inv_run (throws : Nat → Bool) (n N : Nat) (sched : List Thread) (s : PoolState)
    (h : Inv n N s) : Inv n N (run throws n N sched s) := by
  induction sched generalizing s with
  | nil => exact h
  | cons th rest ih => exact ih (step throws n N s th) (inv_step throws n N s th h)

/-- **C1** (no lost tasks). For every number `N` of tasks, every number
`n ≥ 1` of workers, every behaviour of the tasks and every interleaving: if the
owning thread has passed the `N` tasks to `enqueue` and its call of `shutdown()`
has returned, then the calls made are a rearrangement of the `N` tasks, each
task was called exactly once, and the queue is empty. -/
theorem no_lost_tasks (throws : Nat → Bool) (n N : Nat) (sched : List Thread)
    (hn : 1 ≤ n) (hret : (run throws n N sched init).main = MainPc.returned) :
    (run throws n N sched init).executed.Perm (List.range N) ∧
    (∀ k, k < N → (run throws n N sched init).executed.count k = 1) ∧
    (∀ k, N ≤ k → (run throws n N sched init).executed.count k = 0) ∧
    (run throws n N sched init).tasks = [] := by
  have h := inv_run throws n N sched init (inv_init n N)
  have hall := h.all_joined hret
  have hif := in_flight_of_exited _ n hall
  have htasks := (h.exited_drained 0 (hall 0 hn)).2
  have hcount : ∀ a, (run throws n N sched init).executed.count a = (List.range N).count a := by
    intro a
    have := h.conservation a
    rw [hif, htasks, hret] at this
    simpa [submitted] using this
  refine ⟨List.perm_iff_count.mpr hcount, ?_, ?_, htasks⟩
  · intro k hk
    rw [hcount k]
    exact List.count_eq_one_of_mem (List.nodup_range N) (List.mem_range.mpr hk)
  · intro k hk
    rw [hcount k]
    exact List.count_eq_zero_of_not_mem (fun hm => absurd (List.mem_range.mp hm) (by omega))

/-- Witness of **C1**: two workers, two tasks, the interleaving
`shutdown_schedule`, at the end of which `shutdown()` has returned. -/
theorem no_lost_tasks_witness :
    (run (fun _ => false) 2 2 shutdown_schedule init).main = MainPc.returned ∧
    (run (fun _ => false) 2 2 shutdown_schedule init).executed = [1, 0] ∧
    (run (fun _ => false) 2 2 shutdown_schedule init).executed.Perm (List.range 2) ∧
    (run (fun _ => false) 2 2 shutdown_schedule init).tasks = [] :=
  have h := no_lost_tasks (fun _ => false) 2 2 shutdown_schedule (by decide) (by decide)
  ⟨by decide, by decide, h.1, h.2.2.2⟩

/-- An interleaving run in two parts. -/
theorem run_append (throws : Nat → Bool) (n N : Nat) (a b : List Thread) (s : PoolState) :
    run throws n N (a ++ b) s = run throws n N b (run throws n N a s) := by
  unfold run
  rw [List.foldl_append]

/-- The owning thread does not move the workers. -/
theorem main_step_workers (n N : Nat) (s : PoolState) :
    (main_step n N s).workers = s.workers := by
  unfold main_step
  split
  · split
    · split <;> rfl
    · rfl
  · rfl
  · split
    · split <;> rfl
    · rfl
  · rfl

/-- The owning thread calls no task, and what it does to the queue is to push
at its end. -/
theorem main_step_queue (n N : Nat) (s : PoolState) :
    (main_step n N s).executed = s.executed ∧ s.tasks <+: (main_step n N s).tasks := by
  unfold main_step
  split
  · split
    · split <;> exact ⟨rfl, List.prefix_refl _⟩
    · exact ⟨rfl, List.prefix_refl _⟩
  · exact ⟨rfl, List.prefix_append _ _⟩
  · split
    · split <;> exact ⟨rfl, List.prefix_refl _⟩
    · exact ⟨rfl, List.prefix_refl _⟩
  · exact ⟨rfl, List.prefix_refl _⟩

/-- A worker does not move another worker. -/
theorem worker_step_other (throws : Nat → Bool) (s : PoolState) (i j : Nat) (hij : i ≠ j) :
    (worker_step throws s j).workers i = s.workers i := by
  unfold worker_step
  split
  · split
    · exact Function.update_noteq hij _ _
    · rfl
  · split <;> exact Function.update_noteq hij _ _
  · split
    · exact Function.update_noteq hij _ _
    · rfl
  · split
    · exact Function.update_noteq hij _ _
    · split <;> exact Function.update_noteq hij _ _
  · split <;> exact Function.update_noteq hij _ _
  · rfl
  · rfl
  · rfl

/-- A worker that an exception took out of `worker_loop` does nothing more. -/
theorem worker_step_threw (throws : Nat → Bool) (s : PoolState) (i : Nat)
    (h : s.workers i = WorkerPc.threw) : worker_step throws s i = s := by
  unfold worker_step
  rw [h]

/-- No step brings back a worker that an exception took out of `worker_loop`. -/
theorem threw_stays (throws : Nat → Bool) (n N : Nat) (s : PoolState) (th : Thread) (i : Nat)
    (h : s.workers i = WorkerPc.threw) :
    (step throws n N s th).workers i = WorkerPc.threw := by
  unfold step
  split
  · rw [main_step_workers]
    exact h
  · rename_i j
    split
    · by_cases hij : i = j
      · subst hij
        rw [worker_step_threw throws s i h]
        exact h
      · rw [worker_step_other throws s i j hij]
        exact h
    · exact h

/-- With one worker, once an exception took it out of `worker_loop`, a step
calls no task and removes nothing from the queue. -/
theorem single_worker_step_after_throw (throws : Nat → Bool) (N : Nat) (s : PoolState)
    (th : Thread) (h : s.workers 0 = WorkerPc.threw) :
    (step throws 1 N s th).executed = s.executed ∧ s.tasks <+: (step throws 1 N s th).tasks := by
  unfold step
  split
  · exact main_step_queue 1 N s
  · rename_i j
    split
    · rename_i hj
      have hj0 : j = 0 := by omega
      subst hj0
      rw [worker_step_threw throws s 0 h]
      exact ⟨rfl, List.prefix_refl _⟩
    · exact ⟨rfl, List.prefix_refl _⟩

/-- With one worker, once an exception took it out of `worker_loop`, no
interleaving calls a task or removes anything from the queue. -/
theorem single_worker_run_after_throw (throws : Nat → Bool) (N : Nat) (sched : List Thread)
    (s : PoolState) (h : s.workers 0 = WorkerPc.threw) :
    (run throws 1 N sched s).executed = s.executed ∧ s.tasks <+: (run throws 1 N sched s).tasks := by
  induction sched generalizing s with
  | nil => exact ⟨rfl, List.prefix_refl _⟩
  | cons th rest ih =>
    have h1 := single_worker_step_after_throw throws N s th h
    have h2 := ih (step throws 1 N s th) (threw_stays throws 1 N s th 0 h)
    exact ⟨h2.1.trans h1.1, List.IsPrefix.trans h1.2 h2.2⟩

/-- No interleaving brings back a worker that an exception took out of
`worker_loop`. -/
theorem threw_stays_run (throws : Nat → Bool) (n N : Nat) (sched : List Thread)
    (s : PoolState) (i : Nat) (h : s.workers i = WorkerPc.threw) :
    (run throws n N sched s).workers i = WorkerPc.threw := by
  induction sched generalizing s with
  | nil => exact h
  | cons th rest ih => exact ih (step throws n N s th) (threw_stays throws n N s th i h)

/-- With one worker that an exception took out of `worker_loop` and all `N`
tasks submitted, the queue and the log of calls never change again, and
`shutdown()` does not return. -/
theorem single_worker_stuck (throws : Nat → Bool) (N : Nat) (sched : List Thread)
    (s : PoolState) (hw : s.workers 0 = WorkerPc.threw)
    (hm : s.main = MainPc.submitting N ∨ s.main = MainPc.joining 0) :
    (run throws 1 N sched s).tasks = s.tasks ∧
    (run throws 1 N sched s).executed = s.executed ∧
    (run throws 1 N sched s).workers 0 = WorkerPc.threw ∧
    (run throws 1 N sched s).main ≠ MainPc.returned := by
  induction sched generalizing s with
  | nil =>
    refine ⟨rfl, rfl, hw, ?_⟩
    rcases hm with hm | hm <;>
    · show s.main ≠ MainPc.returned
      rw [hm]
      simp
  | cons th rest ih =>
    have hstep : (step throws 1 N s th).tasks = s.tasks ∧
        (step throws 1 N s th).executed = s.executed ∧
        ((step throws 1 N s th).main = MainPc.submitting N ∨
          (step throws 1 N s th).main = MainPc.joining 0) := by
      unfold step
      split
      · unfold main_step
        rcases hm with hm | hm
        · rw [hm]
          simp
        · rw [hm]
          simp [hw, hm]
      · rename_i j
        split
        · rename_i hj
          have hj0 : j = 0 := by omega
          subst hj0
          rw [worker_step_threw throws s 0 hw]
          exact ⟨rfl, rfl, hm⟩
        · exact ⟨rfl, rfl, hm⟩
    have h2 := ih (step throws 1 N s th) (threw_stays throws 1 N s th 0 hw) hstep.2.2
    exact ⟨h2.1.trans hstep.1, h2.2.1.trans hstep.2.1, h2.2.2.1, h2.2.2.2⟩

/-- Counterexample to **C2**: one worker, two tasks queued, the first of which
throws. When the worker calls it the exception leaves `worker_loop`: the worker
is not looping any more, `std::terminate` is called, and the second task stays
in the queue and is never called, whatever is scheduled afterwards. -/
theorem task_error_not_isolated :
    (run first_task_throws 1 2 before_throw_schedule init).workers 0 = WorkerPc.running 0 ∧
    (run first_task_throws 1 2 before_throw_schedule init).tasks = [1] ∧
    (run first_task_throws 1 2 (before_throw_schedule ++ [Thread.worker 0]) init).workers 0 =
      WorkerPc.threw ∧
    (run first_task_throws 1 2 (before_throw_schedule ++ [Thread.worker 0]) init).aborted =
      true ∧
    (∀ more : List Thread,
      (run first_task_throws 1 2 (before_throw_schedule ++ [Thread.worker 0] ++ more)
        init).tasks = [1] ∧
      (run first_task_throws 1 2 (before_throw_schedule ++ [Thread.worker 0] ++ more)
        init).executed = [0] ∧
      (run first_task_throws 1 2 (before_throw_schedule ++ [Thread.worker 0] ++ more)
        init).workers 0 = WorkerPc.threw) := by
  refine ⟨by decide, by decide, by decide, by decide, ?_⟩
  intro more
  rw [run_append]
  have h := single_worker_stuck first_task_throws 2 more
    (run first_task_throws 1 2 (before_throw_schedule ++ [Thread.worker 0]) init)
    (by decide) (Or.inl (by decide))
  exact ⟨h.1.trans (by decide), h.2.1.trans (by decide), h.2.2.1⟩

/-- **C2** (fault isolation), amended to what `worker_loop` does. It has no
`try`/`catch`: when the task a worker calls throws, the error is not caught at
the worker boundary. It leaves `worker_loop` and `std::terminate` is called;
the call leaves the queue as it is; whatever is scheduled afterwards, that
worker stays out of its loop and takes no further action, so it dequeues
nothing more. When it is the only worker, no task is called any more and
everything queued stays queued. -/
theorem task_error_escapes (throws : Nat → Bool) (n N : Nat) (s : PoolState) (i t : Nat)
    (hi : i < n) (hrun : s.workers i = WorkerPc.running t) (hthrows : throws t = true) :
    (step throws n N s (Thread.worker i)).workers i = WorkerPc.threw ∧
    (step throws n N s (Thread.worker i)).aborted = true ∧
    (step throws n N s (Thread.worker i)).tasks = s.tasks ∧
    (step throws n N s (Thread.worker i)).executed = s.executed ++ [t] ∧
    (∀ sched,
      (run throws n N sched (step throws n N s (Thread.worker i))).workers i = WorkerPc.threw ∧
      step throws n N (run throws n N sched (step throws n N s (Thread.worker i)))
          (Thread.worker i) =
        run throws n N sched (step throws n N s (Thread.worker i))) ∧
    (n = 1 → ∀ sched,
      (run throws n N sched (step throws n N s (Thread.worker i))).executed =
        s.executed ++ [t] ∧
      s.tasks <+: (run throws n N sched (step throws n N s (Thread.worker i))).tasks) := by
  have hstep : step throws n N s (Thread.worker i) =
      { s with executed := s.executed ++ [t], aborted := true,
               workers := Function.update s.workers i WorkerPc.threw } := by
    unfold step
    simp only [if_pos hi]
    unfold worker_step
    rw [hrun]
    simp only [hthrows, if_true]
  have hthrew : (step throws n N s (Thread.worker i)).workers i = WorkerPc.threw := by
    rw [hstep]
    exact Function.update_same _ _ _
  refine ⟨hthrew, by rw [hstep], by rw [hstep], by rw [hstep], ?_, ?_⟩
  · intro sched
    have hlater := threw_stays_run throws n N sched _ i hthrew
    have key : ∀ s2 : PoolState, s2.workers i = WorkerPc.threw →
        step throws n N s2 (Thread.worker i) = s2 := by
      intro s2 h2
      unfold step
      simp only [if_pos hi]
      exact worker_step_threw throws s2 i h2
    exact ⟨hlater, key _ hlater⟩
  · intro hn sched
    subst hn
    have hi0 : i = 0 := by omega
    subst hi0
    have h := single_worker_run_after_throw throws N sched _ hthrew
    rw [hstep] at h ⊢
    exact h

/-- Witness of **C2**: one worker that has dequeued the throwing first task of
two. -/
theorem task_error_escapes_witness :
    (step first_task_throws 1 2 (run first_task_throws 1 2 before_throw_schedule init)
      (Thread.worker 0)).workers 0 = WorkerPc.threw ∧
    (step first_task_throws 1 2 (run first_task_throws 1 2 before_throw_schedule init)
      (Thread.worker 0)).tasks = [1] :=
  have h := task_error_escapes first_task_throws 1 2
    (run first_task_throws 1 2 before_throw_schedule init) 0 0
    (by decide) (by decide) (by decide)
  ⟨h.1, h.2.2.1.trans (by decide)⟩

/-- The only action of a worker that ends in `exited` is the `return` of line
123, taken with `stop` set and the queue empty. -/
theorem worker_step_exited (throws : Nat → Bool) (s : PoolState) (i : Nat)
    (hafter : (worker_step throws s i).workers i = WorkerPc.exited)
    (hbefore : s.workers i ≠ WorkerPc.exited) :
    s.workers i = WorkerPc.locked ∧ s.stop = true ∧ s.tasks = [] := by
  unfold worker_step at hafter
  split at hafter
  · split at hafter
    · simp at hafter
    · exact absurd hafter hbefore
  · split at hafter <;> simp at hafter
  · split at hafter
    · simp at hafter
    · exact absurd hafter hbefore
  · rename_i hpc
    split at hafter
    · rename_i hcond
      cases hst : s.stop with
      | false => rw [hst] at hcond; simp at hcond
      | true =>
        cases htk : s.tasks with
        | nil => exact ⟨hpc, rfl, rfl⟩
        | cons t r => rw [hst, htk] at hcond; simp at hcond
    · split at hafter <;> simp at hafter
  · split at hafter <;> simp at hafter
  · exact absurd hafter hbefore
  · exact absurd hafter hbefore
  · exact absurd hafter hbefore

/-- The only action of a worker that ends in `threw` is the call of a task that
throws. -/
theorem worker_step_to_threw (throws : Nat → Bool) (s : PoolState) (i : Nat)
    (hafter : (worker_step throws s i).workers i = WorkerPc.threw)
    (hbefore : s.workers i ≠ WorkerPc.threw) :
    ∃ t, s.workers i = WorkerPc.running t ∧ throws t = true := by
  unfold worker_step at hafter
  split at hafter
  · split at hafter
    · simp at hafter
    · exact absurd hafter hbefore
  · split at hafter <;> simp at hafter
  · split at hafter
    · simp at hafter
    · exact absurd hafter hbefore
  · split at hafter
    · simp at hafter
    · split at hafter <;> simp at hafter
  · rename_i t hpc
    split at hafter
    · rename_i hth
      exact ⟨t, hpc, hth⟩
    · simp at hafter
  · exact absurd hafter hbefore
  · exact absurd hafter hbefore
  · exact absurd hafter hbefore

/-- Counterexample to **C10**: two workers, two tasks queued, the first of
which throws. Worker 1 has dequeued it with `stop` false and task 1 behind it
in the queue; its next step ends its loop, by the exception, in a state where
`stop` is false and the queue is not empty, and it does not loop again. -/
theorem worker_ends_with_tasks_queued :
    (run first_task_throws 2 2 second_worker_schedule init).workers 1 = WorkerPc.running 0 ∧
    (run first_task_throws 2 2 second_worker_schedule init).stop = false ∧
    (run first_task_throws 2 2 second_worker_schedule init).tasks = [1] ∧
    (step first_task_throws 2 2 (run first_task_throws 2 2 second_worker_schedule init)
      (Thread.worker 1)).workers 1 = WorkerPc.threw ∧
    (step first_task_throws 2 2 (run first_task_throws 2 2 second_worker_schedule init)
      (Thread.worker 1)).stop = false ∧
    (step first_task_throws 2 2 (run first_task_throws 2 2 second_worker_schedule init)
      (Thread.worker 1)).tasks = [1] ∧
    (run first_task_throws 2 2
      (second_worker_schedule ++ [Thread.worker 1, Thread.worker 1, Thread.worker 1])
      init).workers 1 = WorkerPc.threw ∧
    (run first_task_throws 2 2
      (second_worker_schedule ++ [Thread.worker 1, Thread.worker 1, Thread.worker 1])
      init).tasks = [1] := by
  refine ⟨by decide, by decide, by decide, by decide, by decide, by decide, by decide,
    by decide⟩

/-- **C10** (worker exit invariant), amended to the return of line 123 and to
tasks that return. In every state `s` reached by some interleaving and for
every worker `i`:
a step that makes worker `i` return from `worker_loop` is a step of that worker
from line 123, in a state where `stop` is true and the queue is empty;
at line 123 with a non-empty queue the worker pops the head task and goes on to
call it, and when that call returns it is back at the top of its loop;
while the queue is non-empty the wait predicate lets the worker through;
past `condition.wait` an empty queue comes with `stop` set, so that no step
applies `front()`/`pop()` to an empty queue;
no worker has returned from `worker_loop` while tasks are queued;
and the one other way out of the loop is the exception of a task the worker
called. -/
theorem worker_exit_invariant (throws : Nat → Bool) (n N : Nat) (sched : List Thread)
    (s : PoolState) (i : Nat) (hi : i < n) (hs : s = run throws n N sched init) :
    (∀ th, (step throws n N s th).workers i = WorkerPc.exited →
      s.workers i ≠ WorkerPc.exited →
      th = Thread.worker i ∧ s.workers i = WorkerPc.locked ∧ s.stop = true ∧ s.tasks = []) ∧
    (∀ t rest, s.workers i = WorkerPc.locked → s.tasks = t :: rest →
      (step throws n N s (Thread.worker i)).workers i = WorkerPc.running t ∧
      (step throws n N s (Thread.worker i)).tasks = rest) ∧
    (∀ t, s.workers i = WorkerPc.running t → throws t = false →
      (step throws n N s (Thread.worker i)).workers i = WorkerPc.idle) ∧
    (s.workers i = WorkerPc.pred → s.tasks ≠ [] →
      (step throws n N s (Thread.worker i)).workers i = WorkerPc.locked ∧
      (step throws n N s (Thread.worker i)).tasks = s.tasks) ∧
    (s.workers i = WorkerPc.locked → s.tasks = [] → s.stop = true) ∧
    (∀ th, (step throws n N s th).workers i ≠ WorkerPc.fault) ∧
    (s.workers i = WorkerPc.exited → s.tasks = []) ∧
    (∀ th, (step throws n N s th).workers i = WorkerPc.threw →
      s.workers i ≠ WorkerPc.threw →
      th = Thread.worker i ∧ ∃ t, s.workers i = WorkerPc.running t ∧ throws t = true) := by
  have h : Inv n N s := hs ▸ inv_run throws n N sched init (inv_init n N)
  have hworker : step throws n N s (Thread.worker i) = worker_step throws s i := by
    unfold step
    simp only [if_pos hi]
  refine ⟨?_, ?_, ?_, ?_, ?_, ?_, ?_, ?_⟩
  · intro th hafter hbefore
    unfold step at hafter
    split at hafter
    · rw [main_step_workers] at hafter
      exact absurd hafter hbefore
    · rename_i j
      split at hafter
      · by_cases hij : i = j
        · subst hij
          exact ⟨rfl, worker_step_exited throws s i hafter hbefore⟩
        · rw [worker_step_other throws s i j hij] at hafter
          exact absurd hafter hbefore
      · exact absurd hafter hbefore
  · intro t rest hpc htk
    rw [hworker]
    unfold worker_step
    rw [hpc]
    have hcond : ¬ ((s.stop && s.tasks.isEmpty) = true) := by
      rw [htk]
      simp
    dsimp only
    rw [if_neg hcond]
    split
    · rename_i t2 rest2 htk2
      rw [htk] at htk2
      injection htk2 with h1 h2
      subst h1
      subst h2
      exact ⟨Function.update_same _ _ _, rfl⟩
    · rename_i htk2
      rw [htk] at htk2
      cases htk2
  · intro t hpc hok
    rw [hworker]
    unfold worker_step
    rw [hpc]
    simp only [hok, Bool.false_eq_true, if_false]
    exact Function.update_same _ _ _
  · intro hpc hne
    rw [hworker]
    unfold worker_step
    rw [hpc]
    have hcond : (s.stop || !s.tasks.isEmpty) = true := by
      cases htk : s.tasks with
      | nil => exact absurd htk hne
      | cons t r => simp
    dsimp only
    rw [if_pos hcond]
    exact ⟨Function.update_same _ _ _, rfl⟩
  · intro hpc htk
    rcases h.past_wait i hpc with hst | hne
    · exact hst
    · exact absurd htk hne
  · intro th
    exact (inv_step throws n N s th h).no_fault i
  · intro hpc
    exact (h.exited_drained i hpc).2
  · intro th hafter hbefore
    unfold step at hafter
    split at hafter
    · rw [main_step_workers] at hafter
      exact absurd hafter hbefore
    · rename_i j
      split at hafter
      · by_cases hij : i = j
        · subst hij
          exact ⟨rfl, worker_step_to_threw throws s i hafter hbefore⟩
        · rw [worker_step_other throws s i j hij] at hafter
          exact absurd hafter hbefore
      · exact absurd hafter hbefore

/-- Witness of **C10**: two workers, two tasks; after `dequeue_schedule` worker
0 is at line 123 with task 0 queued, and its next step dequeues task 0. -/
theorem worker_exit_invariant_witness :
    (run (fun _ => false) 2 2 dequeue_schedule init).workers 0 = WorkerPc.locked ∧
    (run (fun _ => false) 2 2 dequeue_schedule init).tasks = [0] ∧
    (step (fun _ => false) 2 2 (run (fun _ => false) 2 2 dequeue_schedule init)
      (Thread.worker 0)).workers 0 = WorkerPc.running 0 ∧
    (step (fun _ => false) 2 2 (run (fun _ => false) 2 2 dequeue_schedule init)
      (Thread.worker 0)).tasks = [] :=
  have h := (worker_exit_invariant (fun _ => false) 2 2 dequeue_schedule
    (run (fun _ => false) 2 2 dequeue_schedule init) 0 (by decide) rfl).2.1 0 []
    (by decide) (by decide)
  ⟨by decide, by decide, h.1, h.2⟩

end HttpServer
